import Mathlib

/-!
Verification development for the pyaff4 subtree of Velocidex/c-aff4.

The definitions below are shallow embeddings of the Python source:

* `pyaff4/pyaff4/aff4_map.py`   — `Range`, `AFF4Map.AddRange`, `AFF4Map.Read`,
  `AFF4Map.Size`, `AFF4Map.WriteStream` (map stream / interval tree).
* `pyaff4/pyaff4/aff4_image.py` — `AFF4Image.Write` chunking loop.
* `pyaff4/pyaff4/data_store.py` — `AFF4ObjectCache`.
* `pyaff4/pyaff4/rdfvalue.py`   — `URN.Append` (with the pieces of
  `posixpath` / `urllib` it calls).
* `pyaff4/zip.py`               — ZIP64 volume write and parse paths.

Machine integers in the Python code are arbitrary-precision; offsets are
embedded as `Int`, byte values as `Nat` (0..255).  Python exceptions are
embedded as `Option`/`Except` results.
-/

namespace PyAff4

/-! ## Map stream: `pyaff4/pyaff4/aff4_map.py` -/

/-- Embedding of `aff4_map.Range`, a namedtuple
`(map_offset, target_offset, length, target_id)`.  Offsets are Python
ints (arbitrary precision, possibly negative), hence `Int`;
`target_id` is an index into the targets list, hence `Nat`. -/
structure Range where
  map_offset : Int
  target_offset : Int
  length : Int
  target_id : Nat
deriving DecidableEq

/-- Embedding of the `Range.map_end` property: `map_offset + length`. -/
def Range.map_end (r : Range) : Int := r.map_offset + r.length

/-- Embedding of `Range.target_offset_at_map_offset`:
`target_offset + offset - map_offset`. -/
def Range.target_offset_at_map_offset (r : Range) (offset : Int) : Int :=
  r.target_offset + offset - r.map_offset

/-- Embedding of `Range.Merge`.  The Python method raises `ValueError`
when the ranges cannot be merged; that is embedded as `none`. -/
def Range.Merge (self other : Range) : Option Range :=
  if other.target_id ≠ self.target_id ∨
      self.target_offset_at_map_offset self.map_offset ≠
        other.target_offset_at_map_offset self.map_offset then
    none
  else
    let start := min self.map_offset other.map_offset
    let stop := max self.map_end other.map_end
    some { self with
            map_offset := start
            length := stop - start
            target_offset := self.target_offset_at_map_offset start }

/-- Embedding of `Range.left_clip`; the out-of-range `ValueError` is `none`. -/
def Range.left_clip (r : Range) (offset : Int) : Option Range :=
  if r.map_offset ≤ offset ∧ offset ≤ r.map_end then
    let adjustment := offset - r.map_offset
    some { r with
            map_offset := r.map_offset + adjustment
            target_offset := r.target_offset + adjustment
            length := r.length - adjustment }
  else none

/-- Embedding of `Range.right_clip`; the out-of-range `ValueError` is `none`. -/
def Range.right_clip (r : Range) (offset : Int) : Option Range :=
  if r.map_offset ≤ offset ∧ offset ≤ r.map_end then
    let adjustment := r.map_end - offset
    some { r with length := r.length - adjustment }
  else none

/-- Embedding of an `intervaltree.Interval`: half-open interval
`[lo, hi)` carrying a `Range` as its data. -/
structure Interval where
  lo : Int
  hi : Int
  data : Range
deriving DecidableEq

/-- The interval tree, embedded as a list of intervals (the tree is a
set; `AddRange` never creates duplicates, and query order is fixed by
the list order where Python pops an arbitrary element of a set that
holds at most one element on the trees the code builds). -/
abbrev Tree := List Interval

/-- Embedding of the point query `tree[p]`: all intervals containing
point `p` (`lo ≤ p < hi`). -/
def treeAtPoint (t : Tree) (p : Int) : List Interval :=
  t.filter (fun iv => decide (iv.lo ≤ p) && decide (p < iv.hi))

/-- Embedding of `intervaltree` set insertion `addi` / `tree[a:b] = data`:
inserting a null interval (`lo ≥ hi`) raises `ValueError` (`none`);
inserting an interval already present is a no-op. -/
def treeAddi (t : Tree) (lo hi : Int) (data : Range) : Option Tree :=
  if lo ≥ hi then none
  else if (⟨lo, hi, data⟩ : Interval) ∈ t then some t
  else some (t ++ [⟨lo, hi, data⟩])

/-- Embedding of `tree.remove_envelop(a, b)`: drop every interval fully
contained in `[a, b)`. -/
def treeRemoveEnvelop (t : Tree) (a b : Int) : Tree :=
  t.filter (fun iv => !(decide (a ≤ iv.lo) && decide (iv.hi ≤ b)))

/-- First half of `AFF4Map.AddRange`: look up the interval containing
`range.map_offset - 1` and either merge with it, clip it, or leave it.
Returns the updated tree, the (possibly merged) new range, and the
interval to remove later (Python keeps it in `left_interval`). -/
def mergeLeftPhase (t : Tree) (r : Range) :
    Option (Tree × Range × Option Interval) :=
  match (treeAtPoint t (r.map_offset - 1)).head? with
  | none => some (t, r, none)
  | some leftIv =>
    match r.Merge leftIv.data with
    | some merged => some (t, merged, some leftIv)
    | none =>
      match leftIv.data.right_clip r.map_offset with
      | none => none
      | some leftRange =>
        if leftRange = leftIv.data then
          some (t, r, none)
        else
          match treeAddi t leftRange.map_offset leftRange.map_end leftRange with
          | none => none
          | some t1 => some (t1, r, some leftIv)

/-- Second half of the neighbour handling in `AFF4Map.AddRange`: the
interval containing `range.map_end + 1`, merged or left-clipped. -/
def mergeRightPhase (t : Tree) (r : Range) :
    Option (Tree × Range × Option Interval) :=
  match (treeAtPoint t (r.map_end + 1)).head? with
  | none => some (t, r, none)
  | some rightIv =>
    match r.Merge rightIv.data with
    | some merged => some (t, merged, some rightIv)
    | none =>
      match rightIv.data.left_clip r.map_end with
      | none => none
      | some rightRange =>
        if rightRange = rightIv.data then
          some (t, r, none)
        else
          match treeAddi t rightRange.map_offset rightRange.map_end rightRange with
          | none => none
          | some t1 => some (t1, r, some rightIv)

/-- Embedding of the tree manipulation in `AFF4Map.AddRange` (the body
after `target_id` resolution).  `ValueError` from the clips or from
inserting a null interval is embedded as `none`. -/
def addRangeTree (t : Tree) (r0 : Range) : Option Tree := do
  let (t1, r1, leftRemove) ← mergeLeftPhase t r0
  let (t2, r2, rightRemove) ← mergeRightPhase t1 r1
  -- Remove the left and right intervals now (dedup when identical).
  let t3 := match leftRemove with
    | some iv => t2.erase iv
    | none => t2
  let t4 := match rightRemove with
    | some iv => if leftRemove = some iv then t3 else t3.erase iv
    | none => t3
  -- Remove any intervals inside this range.
  let t5 := treeRemoveEnvelop t4 r2.map_offset r2.map_end
  -- Add the new interval.
  treeAddi t5 r2.map_offset r2.map_end r2

/-- State of an `AFF4Map`: the deduplicated target list and the interval
tree (`target_idx_map` is the index function of `targets`). -/
structure MapState where
  targets : List String
  tree : Tree
deriving DecidableEq

/-- Embedding of `AFF4Map.AddRange(map_offset, target_offset, length, target)`:
resolve `target_id` (appending a fresh target), then update the tree. -/
def MapState.AddRange (st : MapState) (map_offset target_offset length : Int)
    (target : String) : Option MapState :=
  let (targets, target_id) :=
    match st.targets.findIdx? (fun x => x == target) with
    | some i => (st.targets, i)
    | none => (st.targets ++ [target], st.targets.length)
  match addRangeTree st.tree ⟨map_offset, target_offset, length, target_id⟩ with
  | none => none
  | some tree => some ⟨targets, tree⟩

/-- Embedding of `AFF4Map.Size`: `self.tree.end()`, the maximal interval
end, `0` on an empty tree. -/
def treeEnd (t : Tree) : Int :=
  match t.map (fun iv => iv.hi) with
  | [] => 0
  | x :: xs => xs.foldl max x

/-- Embedding of the slice query `tree[a:a+n]`: all intervals
overlapping the half-open window (`lo < b` and `a < hi`). -/
def treeOverlap (t : Tree) (a b : Int) : List Interval :=
  t.filter (fun iv => decide (iv.lo < b) && decide (a < iv.hi))

/-- Lexicographic comparison of intervals as Python sorts them: by
`(begin, end, data)` with the data namedtuple compared field by field. -/
def Interval.lexLE (x y : Interval) : Bool :=
  if x.lo ≠ y.lo then decide (x.lo < y.lo)
  else if x.hi ≠ y.hi then decide (x.hi < y.hi)
  else if x.data.map_offset ≠ y.data.map_offset then
    decide (x.data.map_offset < y.data.map_offset)
  else if x.data.target_offset ≠ y.data.target_offset then
    decide (x.data.target_offset < y.data.target_offset)
  else if x.data.length ≠ y.data.length then
    decide (x.data.length < y.data.length)
  else decide (x.data.target_id ≤ y.data.target_id)

/-- Stable insertion into a sorted list (used to embed Python `sorted`). -/
def sortedInsert (iv : Interval) : List Interval → List Interval
  | [] => [iv]
  | x :: xs =>
    if x.lexLE iv then x :: sortedInsert iv xs else iv :: x :: xs

/-- Embedding of `sorted(...)` over a set of intervals. -/
def sortIntervals (l : List Interval) : List Interval :=
  l.foldr sortedInsert []

/-- A byte, embedded as an unconstrained `Nat` holding 0..255. -/
abbrev Byte := Nat

/-- Target streams as seen from `AFF4Map.Read`: a function from the
seek position and requested length to the returned bytes (the code
calls `target_stream.Seek(pos)` then `target_stream.Read(n)`). -/
abbrev StreamFn := Int → Int → List Byte

/-- Zero padding `"\x00" * n` (empty for non-positive `n`, as in Python). -/
def zeroPad (n : Int) : List Byte := List.replicate n.toNat 0

/-- The byte-for-byte content of a concrete stream of bytes `bs`, as a
`StreamFn`: seeking clamps below zero (`AFF4Stream.Seek`), reading past
the end is short, and a negative read length returns the rest (Python
`read` semantics on a file or `StringIO`). -/
def streamOfBytes (bs : List Byte) : StreamFn := fun pos n =>
  let rest := bs.drop (max pos 0).toNat
  if n < 0 then rest else rest.take n.toNat

/-- Loop body of `AFF4Map.Read`: walk the sorted intervals, pad gaps
with zeros, and read each interval from its target.  `openTarget` is
the composite of `self.targets[range.target_id]` and
`resolver.AFF4FactoryOpen`; `none` embeds the `IOError` that the code
catches and turns into zero padding.  Returns the accumulated bytes,
the new read pointer, and the remaining length. -/
def mapReadLoop (openTarget : Nat → Option StreamFn) :
    List Interval → List Byte → Int → Int → List Byte × Int × Int
  | [], result, readptr, length => (result, readptr, length)
  | iv :: rest, result, readptr, length =>
    let r := iv.data
    -- The start of the range is ahead of us - we pad with zeros.
    let (result, readptr, length) :=
      if r.map_offset > readptr then
        let padding := min length (r.map_offset - readptr)
        (result ++ zeroPad padding, readptr + padding, length - padding)
      else (result, readptr, length)
    if length = 0 then (result, readptr, length)
    else
      let length_to_read := min length (r.map_end - readptr)
      let chunk :=
        match openTarget r.target_id with
        | some f => f (r.target_offset_at_map_offset readptr) length_to_read
        | none => zeroPad length_to_read
      mapReadLoop openTarget rest (result ++ chunk)
        (readptr + length_to_read) (length - length_to_read)

/-- Embedding of `AFF4Map.Read(length)`: returns the bytes and the new
read pointer (`self.readptr` after the call). -/
def mapRead (openTarget : Nat → Option StreamFn) (t : Tree)
    (readptr length : Int) : List Byte × Int :=
  let intervals := sortIntervals (treeOverlap t readptr (readptr + length))
  let (result, readptr, length) := mapReadLoop openTarget intervals [] readptr length
  if result.isEmpty then (zeroPad length, readptr) else (result, readptr)

/-- Replacement environment in which every unopenable target is an
infinite zero stream (used to state the fault-tolerance of `Read`). -/
def zeroFilled (openTarget : Nat → Option StreamFn) : Nat → Option StreamFn :=
  fun tid => some ((openTarget tid).getD (fun _ n => zeroPad n))

/-- Embedding of the non-map branch of `AFF4Map.WriteStream(source)` on
a fresh map whose backing stream starts empty: the source bytes are
copied wholesale into the backing stream (`data_stream.WriteStream`),
then the code executes
`self.AddRange(0, data_stream.Size(), data_stream.Size(), data_stream.urn)`.
Returns the map state and the backing stream content. -/
def mapWriteStreamNonMap (source : List Byte) :
    Option (MapState × List Byte) :=
  let data_stream := source
  let size : Int := data_stream.length
  match MapState.AddRange ⟨[], []⟩ 0 size size "data" with
  | none => none
  | some st => some (st, data_stream)

/-! ## Image stream write path: `pyaff4/pyaff4/aff4_image.py` -/

/-- Embedding of the chunking loop of `AFF4Image.Write`:
`while len(self.buffer) - idx > self.chunk_size: ... FlushChunk(chunk)`.
Returns the list of chunks passed to `FlushChunk`, in order, and the
remaining buffer `self.buffer[idx:]`.  The Python loop does not
terminate when `chunk_size = 0`; that degenerate case exits
immediately here and every theorem below assumes `0 < chunk_size`. -/
def writeChunksLoop (chunk_size : Nat) (buffer : List Byte) :
    List (List Byte) × List Byte :=
  if _h : chunk_size < buffer.length ∧ 0 < chunk_size then
    let chunk := buffer.take chunk_size
    let (flushed, final) := writeChunksLoop chunk_size (buffer.drop chunk_size)
    (chunk :: flushed, final)
  else ([], buffer)
termination_by buffer.length
decreasing_by
  simp only [List.length_drop]
  omega

/-- Embedding of `AFF4Image.Write(data)`: append `data` to the buffer
and run the chunking loop. -/
def imageWrite (chunk_size : Nat) (buffer data : List Byte) :
    List (List Byte) × List Byte :=
  writeChunksLoop chunk_size (buffer ++ data)

/-! ## Object cache: `pyaff4/pyaff4/data_store.py`, `AFF4ObjectCache`

The cache state carries the `in_use` map (key with its `use_count`),
the LRU list with its most recently used entry first (`lru_list.next`;
`lru_map` is its key set), and the keys flushed by eviction.  Keys are
the serialized URNs.  `CHECK` failures raise `RuntimeError` before any
mutation, embedded as `none`. -/

/-- State of an `AFF4ObjectCache`. -/
structure CacheState where
  max_items : Nat
  in_use : List (String × Nat)
  lru : List String
  flushed : List String
deriving DecidableEq

/-- A fresh cache of the given capacity. -/
def CacheState.init (max_items : Nat) : CacheState := ⟨max_items, [], [], []⟩

/-- Loop of `AFF4ObjectCache._Trim`, with an explicit fuel: every pass
drops one tail entry, so `lru.length` passes always suffice. -/
def trimLoopAux (max_items : Nat) :
    Nat → List String → List String → List String × List String
  | 0, lru, flushed => (lru, flushed)
  | fuel + 1, lru, flushed =>
    if max_items < lru.length then
      match lru.getLast? with
      | some older => trimLoopAux max_items fuel lru.dropLast (flushed ++ [older])
      | none => (lru, flushed)
    else (lru, flushed)

/-- Embedding of `AFF4ObjectCache._Trim`: unlink and flush the tail of
the LRU list while it exceeds the capacity. -/
def trimLoop (max_items : Nat) (lru : List String) (flushed : List String) :
    List String × List String :=
  trimLoopAux max_items lru.length lru flushed

/-- Embedding of `AFF4ObjectCache.Put(obj, in_use_state)`. -/
def CacheState.Put (st : CacheState) (key : String) (in_use_state : Bool) :
    Option CacheState :=
  if st.in_use.any (fun p => p.1 == key) then none
  else if st.lru.contains key then none
  else if in_use_state then
    some { st with in_use := (key, 1) :: st.in_use }
  else
    let res := trimLoop st.max_items (key :: st.lru) []
    some { st with lru := res.1, flushed := st.flushed ++ res.2 }

/-- Embedding of `AFF4ObjectCache.Get(urn)`: returns the found key (the
cached object) and the updated state; `none` as first component embeds
Python returning `None`. -/
def CacheState.Get (st : CacheState) (key : String) :
    Option String × CacheState :=
  if st.in_use.any (fun p => p.1 == key) then
    let in_use := st.in_use.map (fun p => if p.1 == key then (p.1, p.2 + 1) else p)
    (some key, { st with in_use := in_use })
  else if st.lru.contains key then
    (some key,
     { st with lru := st.lru.erase key, in_use := (key, 1) :: st.in_use })
  else (none, st)

/-- Embedding of `AFF4ObjectCache.Return(obj)`. -/
def CacheState.Ret (st : CacheState) (key : String) : Option CacheState :=
  match st.in_use.find? (fun p => p.1 == key) with
  | none => none
  | some (_, use_count) =>
    if use_count = 0 then none
    else if use_count - 1 = 0 then
      let res := trimLoop st.max_items (key :: st.lru) []
      some { st with
              in_use := st.in_use.filter (fun p => p.1 != key)
              lru := res.1
              flushed := st.flushed ++ res.2 }
    else
      let in_use := st.in_use.map (fun p => if p.1 == key then (p.1, p.2 - 1) else p)
      some { st with in_use := in_use }

/-- Embedding of `AFF4ObjectCache.Remove(obj)`: flush and drop the
entry from whichever side holds it. -/
def CacheState.Remove (st : CacheState) (key : String) : Option CacheState :=
  if st.lru.contains key then
    some { st with lru := st.lru.erase key, flushed := st.flushed ++ [key] }
  else if st.in_use.any (fun p => p.1 == key) then
    some { st with in_use := st.in_use.filter (fun p => p.1 != key)
                   flushed := st.flushed ++ [key] }
  else none

/-- The four cache operations of the claim. -/
inductive CacheOp where
  | put (key : String) (in_use_state : Bool)
  | get (key : String)
  | ret (key : String)
  | remove (key : String)

/-- One cache operation; a `CHECK` failure raises before mutating, so
the failed state is the unchanged state. -/
def cacheStep (st : CacheState) (op : CacheOp) : CacheState :=
  match op with
  | .put key in_use_state => (st.Put key in_use_state).getD st
  | .get key => (st.Get key).2
  | .ret key => (st.Ret key).getD st
  | .remove key => (st.Remove key).getD st

/-- Run a sequence of cache operations from the empty cache. -/
def cacheRun (max_items : Nat) (ops : List CacheOp) : CacheState :=
  ops.foldl cacheStep (CacheState.init max_items)

/-! ## URN append: `pyaff4/pyaff4/rdfvalue.py`, `URN.Append`

`URN.Append` is built from `urllib.parse.urlparse`, `urllib.parse.quote`,
`str.lstrip`, `posixpath.join`, `posixpath.normpath` and
`urllib.parse.urlunparse`; the relevant behaviour of those library
functions is embedded below.  All URN text handled here is ASCII, so
characters are percent-encoded from their code points. -/

/-- Uppercase hexadecimal digit. -/
def hexDigitUpper (n : Nat) : Char :=
  if n < 10 then Char.ofNat (48 + n) else Char.ofNat (55 + n)

/-- Embedding of `urllib.parse.quote(component)` (default safe chars
plus `/`) on ASCII text: unreserved characters pass through, everything
else becomes `%HH`. -/
def pyQuote (s : String) : String :=
  String.mk (s.data.flatMap (fun c =>
    if c.isAlpha || c.isDigit || c = '_' || c = '.' || c = '-' || c = '~' || c = '/'
    then [c]
    else ['%', hexDigitUpper (c.toNat / 16), hexDigitUpper (c.toNat % 16)]))

/-- Split a character list at every occurrence of `sep`, keeping empty
pieces (Python `str.split(sep)`). -/
def chSplit (sep : Char) : List Char → List (List Char)
  | [] => [[]]
  | c :: rest =>
    let r := chSplit sep rest
    if c = sep then [] :: r
    else
      match r with
      | h :: t => (c :: h) :: t
      | [] => [[c]]

/-- Join character lists with a separator (Python `sep.join(parts)`). -/
def chIntercalate (sep : Char) : List (List Char) → List Char
  | [] => []
  | [x] => x
  | x :: xs => x ++ sep :: chIntercalate sep xs

/-- Embedding of one `posixpath.join` step: absolute components replace
the path, others are appended with a separating slash when needed. -/
def posixJoinPieceCh (path b : List Char) : List Char :=
  match b with
  | '/' :: _ => b
  | _ =>
    if path = [] ∨ path.getLast? = some '/' then path ++ b
    else path ++ '/' :: b

/-- Embedding of `posixpath.join("/", p, c)`. -/
def posixJoin3 (a p c : String) : String :=
  String.mk (posixJoinPieceCh (posixJoinPieceCh a.data p.data) c.data)

/-- Embedding of `posixpath.normpath`. -/
def posixNormpath (path : String) : String :=
  if path.data = [] then "." else
  let initial_slashes : Nat :=
    match path.data with
    | '/' :: '/' :: '/' :: _ => 1
    | '/' :: '/' :: _ => 2
    | '/' :: _ => 1
    | _ => 0
  let comps := chSplit '/' path.data
  let new_comps := comps.foldl (fun acc comp =>
    if comp = [] ∨ comp = ['.'] then acc
    else if comp ≠ ['.', '.'] ∨ (initial_slashes = 0 ∧ acc = []) ∨
        (acc ≠ [] ∧ acc.getLast? = some ['.', '.']) then acc ++ [comp]
    else acc.dropLast) []
  let joined := List.replicate initial_slashes '/' ++ chIntercalate '/' new_comps
  if joined = [] then "." else String.mk joined

/-- Characters allowed in a URL scheme (`urllib.parse.scheme_chars`). -/
def isSchemeChar (c : Char) : Bool :=
  c.isAlpha || c.isDigit || c = '+' || c = '-' || c = '.'

/-- Split a string at the first occurrence of `sep`, if any. -/
def splitFirst (sep : Char) : List Char → Option (List Char × List Char)
  | [] => none
  | c :: rest =>
    if c = sep then some ([], rest)
    else match splitFirst sep rest with
      | some (p, r) => some (c :: p, r)
      | none => none

/-- Embedding of `urllib.parse.urlparse` restricted to the components
the URN code uses: `(scheme, netloc, path)`.  Query, fragment and
params stay empty on every URN handled here. -/
def pyUrlparse (url : String) : String × String × String :=
  -- Scheme.
  let (scheme, rest) :=
    match splitFirst ':' url.data with
    | some (before, after) =>
      if before ≠ [] ∧ before.all isSchemeChar ∧
          (before.head?.map Char.isAlpha).getD false then
        (String.mk (before.map Char.toLower), after)
      else ("", url.data)
    | none => ("", url.data)
  -- Netloc.
  let (netloc, path) :=
    match rest with
    | '/' :: '/' :: r =>
      let netloc := r.takeWhile (fun c => c ≠ '/' ∧ c ≠ '?' ∧ c ≠ '#')
      (netloc, r.drop netloc.length)
    | r => ([], r)
  -- Fragment, then query, are split off (always absent on URNs).
  let path := (splitFirst '#' path).map Prod.fst |>.getD path
  let path := (splitFirst '?' path).map Prod.fst |>.getD path
  (scheme, String.mk netloc, String.mk path)

/-- Schemes of `urllib.parse.uses_netloc` that can occur here. -/
def usesNetloc : List String := ["", "http", "https", "ftp", "file", "ws", "wss"]

/-- Embedding of `urllib.parse.urlunparse` on `(scheme, netloc, path)`
with empty params, query and fragment. -/
def pyUrlunparse (scheme netloc path : String) : String :=
  let url := path.data
  let url :=
    if netloc ≠ "" ∨ (scheme ≠ "" ∧ scheme ∈ usesNetloc ∧
        ¬ (url.take 2 = ['/', '/'])) then
      let url := if url ≠ [] ∧ ¬ (url.head? = some '/') then '/' :: url else url
      '/' :: '/' :: netloc.data ++ url
    else url
  if scheme ≠ "" then String.mk (scheme.data ++ ':' :: url) else String.mk url

/-- Embedding of `URN._Parse` for values that carry a scheme: paths are
posix-normalized except for `http` URNs (normalizing `.` becomes the
empty path). -/
def urnParse (value : String) : String × String × String :=
  let (scheme, netloc, path) := pyUrlparse value
  if scheme ≠ "" ∧ scheme ≠ "http" then
    let normalized := posixNormpath path
    let normalized := if normalized = "." then "" else normalized
    (scheme, netloc, normalized)
  else (scheme, netloc, path)

/-- Embedding of `URN.Append(component)` (with the default
`quote=True`): quote the component, strip leading slashes, join onto
the parsed path rooted at `/`, normalize, and rebuild the URN. -/
def urnAppend (value : String) (component : String) : String :=
  let (scheme, netloc, path) := urnParse value
  let component := pyQuote component
  -- Work around usual posixpath.join bug.
  let component := String.mk (component.data.dropWhile (fun c => c = '/'))
  let new_path := posixNormpath (posixJoin3 "/" path component)
  pyUrlunparse scheme netloc new_path

/-! ## ZIP64 volume: `pyaff4/zip.py`

On-disk structures are declared through `struct_parser.CreateStruct`
with little-endian fixed-width fields; they are embedded as structures
whose `Pack`/`unpackFrom` serialize exactly those fields.  Unsigned
fields are `Nat`, signed (`int32_t`) fields are `Int`. -/

/-- Little-endian byte encoding of a value already reduced below 2^(8w). -/
def leBytes : Nat → Nat → List Byte
  | 0, _ => []
  | w + 1, v => v % 256 :: leBytes w (v / 256)

/-- Pack an unsigned little-endian field of `w` bytes. -/
def packU (w : Nat) (v : Nat) : List Byte := leBytes w (v % 2 ^ (8 * w))

/-- Pack a signed little-endian field of `w` bytes (two's complement). -/
def packI (w : Nat) (v : Int) : List Byte :=
  leBytes w (v.emod (2 ^ (8 * w))).toNat

/-- Read an unsigned little-endian field of `w` bytes at `off`. -/
def readLE (bs : List Byte) (off w : Nat) : Nat :=
  ((bs.drop off).take w).foldr (fun b acc => b % 256 + 256 * acc) 0

/-- Read a signed little-endian field of `w` bytes at `off`. -/
def readLEI (bs : List Byte) (off w : Nat) : Int :=
  let u := readLE bs off w
  if u < 2 ^ (8 * w - 1) then (u : Int) else (u : Int) - 2 ^ (8 * w)

/-- Embedding of `ZipFileHeader` (the local file header, 30 bytes). -/
structure ZipFileHeaderS where
  magic : Nat := 0x4034b50
  version : Nat := 0x14
  flags : Nat := 0x8
  compression_method : Nat := 0
  lastmodtime : Nat := 0
  lastmoddate : Nat := 0
  crc32 : Int := 0
  compress_size : Int := 0
  file_size : Int := 0
  file_name_length : Nat := 0
  extra_field_len : Nat := 0
deriving DecidableEq

/-- Serialization of `ZipFileHeader` (`<IHHHHHiiiHH`). -/
def ZipFileHeaderS.Pack (h : ZipFileHeaderS) : List Byte :=
  packU 4 h.magic ++ packU 2 h.version ++ packU 2 h.flags ++
  packU 2 h.compression_method ++ packU 2 h.lastmodtime ++
  packU 2 h.lastmoddate ++ packI 4 h.crc32 ++ packI 4 h.compress_size ++
  packI 4 h.file_size ++ packU 2 h.file_name_length ++ packU 2 h.extra_field_len

/-- Parse a `ZipFileHeader` at `off`; `none` embeds `struct.error` on a
short buffer. -/
def ZipFileHeaderS.unpackFrom (bs : List Byte) (off : Nat) : Option ZipFileHeaderS :=
  if off + 30 ≤ bs.length then
    some { magic := readLE bs off 4
           version := readLE bs (off + 4) 2
           flags := readLE bs (off + 6) 2
           compression_method := readLE bs (off + 8) 2
           lastmodtime := readLE bs (off + 10) 2
           lastmoddate := readLE bs (off + 12) 2
           crc32 := readLEI bs (off + 14) 4
           compress_size := readLEI bs (off + 18) 4
           file_size := readLEI bs (off + 22) 4
           file_name_length := readLE bs (off + 26) 2
           extra_field_len := readLE bs (off + 28) 2 }
  else none

/-- Embedding of `ZipFileHeader.IsValid`. -/
def ZipFileHeaderS.IsValid (h : ZipFileHeaderS) : Bool := h.magic == 0x4034b50

/-- Embedding of `Zip64FileHeaderExtensibleField` (32 bytes). -/
structure Zip64ExtraS where
  header_id : Nat := 1
  data_size : Nat := 28
  file_size : Int := 0
  compress_size : Int := 0
  relative_offset_local_header : Int := 0
  disk_number_start : Nat := 0
deriving DecidableEq

/-- Serialization of `Zip64FileHeaderExtensibleField` (`<HHQQQI`). -/
def Zip64ExtraS.Pack (h : Zip64ExtraS) : List Byte :=
  packU 2 h.header_id ++ packU 2 h.data_size ++ packI 8 h.file_size ++
  packI 8 h.compress_size ++ packI 8 h.relative_offset_local_header ++
  packU 4 h.disk_number_start

/-- Parse a `Zip64FileHeaderExtensibleField` from the start of `bs`. -/
def Zip64ExtraS.unpackFromList (bs : List Byte) : Option Zip64ExtraS :=
  if 32 ≤ bs.length then
    some { header_id := readLE bs 0 2
           data_size := readLE bs 2 2
           file_size := (readLE bs 4 8 : Int)
           compress_size := (readLE bs 12 8 : Int)
           relative_offset_local_header := (readLE bs 20 8 : Int)
           disk_number_start := readLE bs 28 4 }
  else none

/-- Embedding of `CDFileHeader` (central directory entry, 46 bytes).
The source default for `external_file_attr` is `int("0644", 0) = 420`
because `CreateStruct` only reads the first token after `=`. -/
structure CDFileHeaderS where
  magic : Nat := 0x2014b50
  version_made_by : Nat := 0x317
  version_needed : Nat := 0x14
  flags : Nat := 0x8
  compression_method : Nat := 0
  dostime : Nat := 0
  dosdate : Nat := 0
  crc32 : Int := 0
  compress_size : Int := -1
  file_size : Int := -1
  file_name_length : Nat := 0
  extra_field_len : Nat := 32
  file_comment_length : Nat := 0
  disk_number_start : Nat := 0
  internal_file_attr : Nat := 0
  external_file_attr : Nat := 420
  relative_offset_local_header : Int := -1
deriving DecidableEq

/-- Serialization of `CDFileHeader` (`<IHHHHHHiiiHHHHHIi`). -/
def CDFileHeaderS.Pack (h : CDFileHeaderS) : List Byte :=
  packU 4 h.magic ++ packU 2 h.version_made_by ++ packU 2 h.version_needed ++
  packU 2 h.flags ++ packU 2 h.compression_method ++ packU 2 h.dostime ++
  packU 2 h.dosdate ++ packI 4 h.crc32 ++ packI 4 h.compress_size ++
  packI 4 h.file_size ++ packU 2 h.file_name_length ++
  packU 2 h.extra_field_len ++ packU 2 h.file_comment_length ++
  packU 2 h.disk_number_start ++ packU 2 h.internal_file_attr ++
  packU 4 h.external_file_attr ++ packI 4 h.relative_offset_local_header

/-- Parse a `CDFileHeader` at `off`. -/
def CDFileHeaderS.unpackFrom (bs : List Byte) (off : Nat) : Option CDFileHeaderS :=
  if off + 46 ≤ bs.length then
    some { magic := readLE bs off 4
           version_made_by := readLE bs (off + 4) 2
           version_needed := readLE bs (off + 6) 2
           flags := readLE bs (off + 8) 2
           compression_method := readLE bs (off + 10) 2
           dostime := readLE bs (off + 12) 2
           dosdate := readLE bs (off + 14) 2
           crc32 := readLEI bs (off + 16) 4
           compress_size := readLEI bs (off + 20) 4
           file_size := readLEI bs (off + 24) 4
           file_name_length := readLE bs (off + 28) 2
           extra_field_len := readLE bs (off + 30) 2
           file_comment_length := readLE bs (off + 32) 2
           disk_number_start := readLE bs (off + 34) 2
           internal_file_attr := readLE bs (off + 36) 2
           external_file_attr := readLE bs (off + 38) 4
           relative_offset_local_header := readLEI bs (off + 42) 4 }
  else none

/-- Embedding of `CDFileHeader.IsValid`. -/
def CDFileHeaderS.IsValid (h : CDFileHeaderS) : Bool := h.magic == 0x2014b50

/-- Embedding of `Zip64EndCD` (56 bytes). -/
structure Zip64EndCDS where
  magic : Nat := 0x06064b50
  size_of_header : Nat := 0
  version_made_by : Nat := 0x2d
  version_needed : Nat := 0x2d
  number_of_disk : Nat := 0
  number_of_disk_with_cd : Nat := 0
  number_of_entries_in_volume : Nat := 0
  number_of_entries_in_total : Nat := 0
  size_of_cd : Nat := 0
  offset_of_cd : Nat := 0
deriving DecidableEq

/-- Serialization of `Zip64EndCD` (`<IQHHIIQQQQ`). -/
def Zip64EndCDS.Pack (h : Zip64EndCDS) : List Byte :=
  packU 4 h.magic ++ packU 8 h.size_of_header ++ packU 2 h.version_made_by ++
  packU 2 h.version_needed ++ packU 4 h.number_of_disk ++
  packU 4 h.number_of_disk_with_cd ++ packU 8 h.number_of_entries_in_volume ++
  packU 8 h.number_of_entries_in_total ++ packU 8 h.size_of_cd ++
  packU 8 h.offset_of_cd

/-- Parse a `Zip64EndCD` at `off`. -/
def Zip64EndCDS.unpackFrom (bs : List Byte) (off : Nat) : Option Zip64EndCDS :=
  if off + 56 ≤ bs.length then
    some { magic := readLE bs off 4
           size_of_header := readLE bs (off + 4) 8
           version_made_by := readLE bs (off + 12) 2
           version_needed := readLE bs (off + 14) 2
           number_of_disk := readLE bs (off + 16) 4
           number_of_disk_with_cd := readLE bs (off + 20) 4
           number_of_entries_in_volume := readLE bs (off + 24) 8
           number_of_entries_in_total := readLE bs (off + 32) 8
           size_of_cd := readLE bs (off + 40) 8
           offset_of_cd := readLE bs (off + 48) 8 }
  else none

/-- Embedding of `Zip64EndCD.IsValid`. -/
def Zip64EndCDS.IsValid (h : Zip64EndCDS) : Bool := h.magic == 0x06064b50

/-- Embedding of `Zip64CDLocator` (20 bytes). -/
structure Zip64CDLocatorS where
  magic : Nat := 0x07064b50
  disk_with_cd : Nat := 0
  offset_of_end_cd : Nat := 0
  number_of_disks : Nat := 1
deriving DecidableEq

/-- Serialization of `Zip64CDLocator` (`<IIQI`). -/
def Zip64CDLocatorS.Pack (h : Zip64CDLocatorS) : List Byte :=
  packU 4 h.magic ++ packU 4 h.disk_with_cd ++ packU 8 h.offset_of_end_cd ++
  packU 4 h.number_of_disks

/-- Parse a `Zip64CDLocator` at `off`. -/
def Zip64CDLocatorS.unpackFrom (bs : List Byte) (off : Nat) : Option Zip64CDLocatorS :=
  if off + 20 ≤ bs.length then
    some { magic := readLE bs off 4
           disk_with_cd := readLE bs (off + 4) 4
           offset_of_end_cd := readLE bs (off + 8) 8
           number_of_disks := readLE bs (off + 16) 4 }
  else none

/-- Embedding of `Zip64CDLocator.IsValid`. -/
def Zip64CDLocatorS.IsValid (h : Zip64CDLocatorS) : Bool :=
  h.magic == 0x07064b50 && h.disk_with_cd == 0 && h.number_of_disks == 1

/-- Embedding of `EndCentralDirectory` (22 bytes). -/
structure EndCentralDirectoryS where
  magic : Nat := 0x6054b50
  number_of_this_disk : Nat := 0
  disk_with_cd : Nat := 0
  total_entries_in_cd_on_disk : Nat := 0
  total_entries_in_cd : Nat := 0
  size_of_cd : Int := -1
  offset_of_cd : Int := -1
  comment_len : Nat := 0
deriving DecidableEq

/-- Serialization of `EndCentralDirectory` (`<IHHHHiiH`). -/
def EndCentralDirectoryS.Pack (h : EndCentralDirectoryS) : List Byte :=
  packU 4 h.magic ++ packU 2 h.number_of_this_disk ++ packU 2 h.disk_with_cd ++
  packU 2 h.total_entries_in_cd_on_disk ++ packU 2 h.total_entries_in_cd ++
  packI 4 h.size_of_cd ++ packI 4 h.offset_of_cd ++ packU 2 h.comment_len

/-- Parse an `EndCentralDirectory` at `off`. -/
def EndCentralDirectoryS.unpackFrom (bs : List Byte) (off : Nat) :
    Option EndCentralDirectoryS :=
  if off + 22 ≤ bs.length then
    some { magic := readLE bs off 4
           number_of_this_disk := readLE bs (off + 4) 2
           disk_with_cd := readLE bs (off + 6) 2
           total_entries_in_cd_on_disk := readLE bs (off + 8) 2
           total_entries_in_cd := readLE bs (off + 10) 2
           size_of_cd := readLEI bs (off + 12) 4
           offset_of_cd := readLEI bs (off + 16) 4
           comment_len := readLE bs (off + 20) 2 }
  else none

/-- Embedding of `EndCentralDirectory.IsValid`. -/
def EndCentralDirectoryS.IsValid (h : EndCentralDirectoryS) : Bool :=
  h.magic == 0x6054b50

/-- Embedding of `ZipInfo` (the in-memory central directory record). -/
structure ZipInfoS where
  compression_method : Nat := 0
  compress_size : Int := 0
  file_size : Int := 0
  filename : List Byte := []
  local_header_offset : Int := 0
  crc32 : Int := 0
  lastmoddate : Nat := 0
  lastmodtime : Nat := 0
deriving DecidableEq

/-- The backing store, a seekable byte file: write `data` at position
`pos`, zero-padding any gap and overwriting in place. -/
def storeWriteAt (store : List Byte) (pos : Nat) (data : List Byte) : List Byte :=
  store.take pos ++ List.replicate (pos - store.length) 0 ++ data ++
    store.drop (pos + data.length)

/-- Read `n` bytes at position `pos` (short at end of file). -/
def storeReadAt (store : List Byte) (pos n : Nat) : List Byte :=
  (store.drop pos).take n

/-- Read with a Python length argument: a negative length reads to the
end of the file. -/
def storeReadAtI (store : List Byte) (pos : Nat) (n : Int) : List Byte :=
  if n < 0 then store.drop pos else (store.drop pos).take n.toNat

/-- Modelled from the spec: `zlib.crc32`, the external checksum that
`StreamAddMember` threads through the data.  The CRC is recorded in the
headers but never validated by any load path treated here, so it is
modelled as the constant 0. -/
def crc32Model (_data : List Byte) (_running : Int) : Int := 0

/-- Modelled from the spec: the raw-DEFLATE codec provided by the
external `zlib` library (`compressobj(..., -15)`).  Only its round-trip
with `DecompressBuffer` matters to the claims, so it is modelled as an
identity coding. -/
def deflateModel (data : List Byte) : List Byte := data

/-- Embedding of `zip.DecompressBuffer`, the inverse of the modelled
DEFLATE coding. -/
def DecompressBuffer (data : List Byte) : List Byte := data

/-- Embedding of `ZipInfo.WriteFileHeader`: seek to the remembered
header offset and write the local header (with `-1` size placeholders),
the filename, and the Zip64 extensible field carrying the real values. -/
def WriteFileHeader (zi : ZipInfoS) (file_header_offset : Nat)
    (store : List Byte) : List Byte :=
  let header : ZipFileHeaderS :=
    { crc32 := zi.crc32
      compress_size := -1
      file_size := -1
      file_name_length := zi.filename.length
      compression_method := zi.compression_method
      lastmodtime := zi.lastmodtime
      lastmoddate := zi.lastmoddate
      extra_field_len := 32 }
  let header_64 : Zip64ExtraS :=
    { file_size := zi.file_size
      compress_size := zi.compress_size
      relative_offset_local_header := zi.local_header_offset }
  storeWriteAt store file_header_offset
    (header.Pack ++ zi.filename ++ header_64.Pack)

/-- Embedding of `ZipInfo.WriteCDFileHeader`: the bytes appended to the
in-memory central directory stream for one member. -/
def WriteCDFileHeaderBytes (zi : ZipInfoS) : List Byte :=
  let header : CDFileHeaderS :=
    { compression_method := zi.compression_method
      crc32 := zi.crc32
      file_name_length := zi.filename.length
      dostime := zi.lastmodtime
      dosdate := zi.lastmoddate
      extra_field_len := 32 }
  let zip64header : Zip64ExtraS :=
    { file_size := zi.file_size
      compress_size := zi.compress_size
      relative_offset_local_header := zi.local_header_offset }
  header.Pack ++ zi.filename ++ zip64header.Pack

/-- The members table of a `ZipFile`, keyed by member filename. -/
abbrev Members := List (List Byte × ZipInfoS)

/-- Lookup in the members table (`self.members.get`). -/
def membersGet (ms : Members) (name : List Byte) : Option ZipInfoS :=
  (ms.find? (fun p => p.1 == name)).map Prod.snd

/-- Update-or-insert into the members table. -/
def membersSet (ms : Members) (name : List Byte) (zi : ZipInfoS) : Members :=
  if ms.any (fun p => p.1 == name) then
    ms.map (fun p => if p.1 == name then (name, zi) else p)
  else ms ++ [(name, zi)]

/-- Embedding of `ZipFile.StreamAddMember`: append a local header with
placeholder sizes at the end of the backing store, stream the source
through (`ZIP_STORED` copies, `ZIP_DEFLATE` runs the modelled codec),
then rewrite the local header in place with the final sizes and CRC.
The `BUFF_SIZE` read loop is aggregated into a single pass (each chunk
is appended in order and the loop only accumulates sizes and the CRC).
An unsupported method raises `RuntimeError`, embedded as `none`. -/
def StreamAddMember (store : List Byte) (members : Members)
    (global_offset : Int) (filename : List Byte) (streamData : List Byte)
    (compression_method : Nat) : Option (List Byte × Members) :=
  let pos0 := store.length
  let zi0 : ZipInfoS :=
    { local_header_offset := (pos0 : Int) - global_offset
      filename := filename
      file_size := 0
      crc32 := 0
      compression_method := compression_method }
  let store := WriteFileHeader zi0 pos0 store
  if compression_method = 8 then
    let c_data := deflateModel streamData
    let zi : ZipInfoS :=
      { zi0 with
          compression_method := 8
          compress_size := c_data.length
          file_size := streamData.length
          crc32 := crc32Model streamData 0 }
    let store := store ++ c_data
    let store := WriteFileHeader zi pos0 store
    some (store, membersSet members filename zi)
  else if compression_method = 0 then
    let zi : ZipInfoS :=
      { zi0 with
          compression_method := 0
          compress_size := streamData.length
          file_size := streamData.length
          crc32 := crc32Model streamData 0 }
    let store := store ++ streamData
    let store := WriteFileHeader zi pos0 store
    some (store, membersSet members filename zi)
  else none

/-- Embedding of `ZipFile.write_zip64_CD`: build the central directory
in a memory stream, then the Zip64 end of CD, the Zip64 locator, and
the traditional end of CD carrying the volume URN as its comment, and
append everything to the backing store in one write. -/
def writeZip64CD (store : List Byte) (members : Members)
    (urn_string : List Byte) (global_offset : Int) : List Byte :=
  let ecd_real_offset := store.length
  let cd := members.foldl (fun acc p => acc ++ WriteCDFileHeaderBytes p.2) []
  let offset_of_end_cd : Int := (cd.length : Int) + ecd_real_offset - global_offset
  let size_of_cd := cd.length
  let end_cd : Zip64EndCDS :=
    { size_of_header := 56 - 12
      number_of_entries_in_volume := members.length
      number_of_entries_in_total := members.length
      size_of_cd := size_of_cd
      offset_of_cd := (offset_of_end_cd - size_of_cd).toNat }
  let locator : Zip64CDLocatorS := { offset_of_end_cd := offset_of_end_cd.toNat }
  let ecd : EndCentralDirectoryS :=
    { total_entries_in_cd_on_disk := members.length
      total_entries_in_cd := members.length
      comment_len := urn_string.length }
  store ++ cd ++ end_cd.Pack ++ locator.Pack ++ ecd.Pack ++ urn_string

/-- Does `pattern` occur in `buffer` starting at index `i`? -/
def matchesAt (buffer pattern : List Byte) (i : Nat) : Bool :=
  (buffer.drop i).take pattern.length == pattern

/-- Scan indices `i, i-1, ..., 0` for the first match (the core of
Python `str.rfind`). -/
def rfindFrom (buffer pattern : List Byte) : Nat → Option Nat
  | 0 => if matchesAt buffer pattern 0 then some 0 else none
  | i + 1 =>
    if matchesAt buffer pattern (i + 1) then some (i + 1)
    else rfindFrom buffer pattern i

/-- Embedding of `buffer.rfind(pattern, 0, stop)`: the highest index of
an occurrence lying entirely inside `buffer[0:stop]`. -/
def pyRfind (buffer pattern : List Byte) (stop : Nat) : Option Nat :=
  if stop < pattern.length then none
  else rfindFrom buffer pattern (stop - pattern.length)

/-- The `EndCentralDirectory` magic string `PK\x05\x06`. -/
def ecdMagic : List Byte := [0x50, 0x4b, 0x05, 0x06]

/-- Backward scan loop of `EndCentralDirectory.FromBuffer`.  The
Python loop re-scans with a smaller bound whenever the candidate fails
`IsValid`; the bound strictly decreases, so the fuel (one unit per
candidate position) makes the embedding total without changing any
terminating run. -/
def fromBufferLoop (buffer : List Byte) : Nat → Nat →
    Option (EndCentralDirectoryS × Nat)
  | _, 0 => none
  | stop, fuel + 1 =>
    match pyRfind buffer ecdMagic stop with
    | none => none
    | some index =>
      match EndCentralDirectoryS.unpackFrom buffer index with
      | none => none
      | some end_cd =>
        if end_cd.IsValid then some (end_cd, index)
        else fromBufferLoop buffer index fuel

/-- Embedding of `EndCentralDirectory.FromBuffer`; the `IOError` when
no record is found is `none`. -/
def FromBuffer (buffer : List Byte) : Option (EndCentralDirectoryS × Nat) :=
  if buffer.length > 22 then
    fromBufferLoop buffer (buffer.length - 22 + 4) (buffer.length + 1)
  else none

/-- Error taxonomy of the ZIP load paths: `ioError` embeds `IOError`,
`notImplemented` embeds `NotImplementedError`, `runtimeError` embeds
`RuntimeError`, and `structError` embeds `struct.error` from unpacking
a short buffer. -/
inductive ZipErr where
  | ioError
  | notImplemented
  | runtimeError
  | structError
deriving DecidableEq

/-- Extra-field scan of `parse_cd`: read `extra_field_len` bytes per
iteration until the read position passes `real_end_of_extra`, stopping
early at a header id 1 record.  Fuel bounds the iterations (each
Python iteration either raises or advances the position). -/
def parseExtraLoop (store : List Byte) (read_len : Nat) (real_end : Nat)
    (zi : ZipInfoS) : Nat → Nat → Except ZipErr ZipInfoS
  | _, 0 => .ok zi
  | pos, fuel + 1 =>
    if pos < real_end then
      let chunk := storeReadAt store pos read_len
      match Zip64ExtraS.unpackFromList chunk with
      | none => .error .structError
      | some extra =>
        if extra.header_id = 1 then
          .ok { zi with
                 local_header_offset := extra.relative_offset_local_header
                 file_size := extra.file_size
                 compress_size := extra.compress_size }
        else parseExtraLoop store read_len real_end zi (pos + chunk.length) fuel
    else .ok zi

/-- Central directory walk of `ZipFile.parse_cd`: parse each
`CDFileHeader`, read its filename, recover the Zip64 values from the
extensible field when the 32-bit offset is `-1`, and collect the
members whose local header offset is known. -/
def walkCD (store : List Byte) (global_offset : Int) :
    Int → Nat → Members → Except ZipErr Members
  | _, 0, acc => .ok acc
  | entry_offset, n + 1, acc =>
    let pos := (max (entry_offset + global_offset) 0).toNat
    match CDFileHeaderS.unpackFrom store pos with
    | none => .error .structError
    | some entry =>
      if ¬ entry.IsValid then .error .runtimeError
      else
        let filename := storeReadAt store (pos + 46) entry.file_name_length
        let zi0 : ZipInfoS :=
          { filename := filename
            local_header_offset := entry.relative_offset_local_header
            compression_method := entry.compression_method
            compress_size := entry.compress_size
            file_size := entry.file_size
            crc32 := entry.crc32
            lastmoddate := entry.dosdate
            lastmodtime := entry.dostime }
        let afterName := pos + 46 + filename.length
        let ziRes :=
          if zi0.local_header_offset < 0 then
            parseExtraLoop store entry.extra_field_len
              (afterName + entry.extra_field_len) zi0 afterName
              (entry.extra_field_len + 1)
          else .ok zi0
        match ziRes with
        | .error e => .error e
        | .ok zi =>
          let acc :=
            if zi.local_header_offset ≥ 0 then acc ++ [(zi.filename, zi)] else acc
          walkCD store global_offset
            (entry_offset + 46 + entry.file_name_length + entry.extra_field_len +
              entry.file_comment_length) n acc

/-- Embedding of `ZipFile.parse_cd`: locate the end of central
directory in the last 64 KiB, follow the Zip64 locator when the
traditional offsets are saturated, compute the global offset, and walk
the central directory.  Returns the global offset and the members. -/
def parse_cd (store : List Byte) : Except ZipErr (Int × Members) :=
  let ecd_start := if store.length ≤ 65536 then 0 else store.length - 65536
  let buffer := storeReadAt store ecd_start 65536
  match FromBuffer buffer with
  | none => .error .ioError
  | some (end_cd, buffer_offset) =>
    let ecd_real_offset := ecd_start + buffer_offset
    let directory_offset : Int := end_cd.offset_of_cd
    if directory_offset > 0 then
      -- Traditional zip file - non 64 bit.
      let global_offset : Int :=
        (ecd_real_offset : Int) - end_cd.size_of_cd - directory_offset
      match walkCD store global_offset directory_offset
          end_cd.total_entries_in_cd [] with
      | .error e => .error e
      | .ok ms => .ok (global_offset, ms)
    else
      -- This is a 64 bit archive, find the Zip64EndCD.
      let locator_real_offset : Int := (ecd_real_offset : Int) - 20
      match Zip64CDLocatorS.unpackFrom store (max locator_real_offset 0).toNat with
      | none => .error .structError
      | some locator =>
        if ¬ locator.IsValid then .error .ioError
        else
          match Zip64EndCDS.unpackFrom store
              (max (locator_real_offset - 56) 0).toNat with
          | none => .error .structError
          | some end_cd64 =>
            if ¬ end_cd64.IsValid then .error .runtimeError
            else
              let directory_offset : Int := end_cd64.offset_of_cd
              let global_offset : Int :=
                locator_real_offset - 56 - end_cd64.size_of_cd - directory_offset
              match walkCD store global_offset directory_offset
                  end_cd64.number_of_entries_in_volume [] with
              | .error e => .error e
              | .ok ms => .ok (global_offset, ms)

/-- Result of `ZipFileSegment.LoadFromZipFile`: a fresh in-memory
segment, a `FileWrapper` slice of the backing store (`ZIP_STORED`), or
an inflated in-memory buffer (`ZIP_DEFLATE`). -/
inductive SegData where
  | fresh
  | stored (slice_offset : Nat) (slice_size : Int)
  | buffered (data : List Byte)
deriving DecidableEq

/-- Position of the local file header of a member: its recorded offset
shifted by the global offset, clamped at zero by `AFF4Stream.Seek`. -/
def segHeaderPos (zip_info : ZipInfoS) (global_offset : Int) : Nat :=
  (max (zip_info.local_header_offset + global_offset) 0).toNat

/-- The filename stored in the local file header at `pos`: read
`file_name_length` bytes and keep the part before the first NUL
(`.split("\x00")[0]`). -/
def segLocalName (store : List Byte) (pos : Nat) (file_header : ZipFileHeaderS) :
    List Byte :=
  (storeReadAt store (pos + 30) file_header.file_name_length).takeWhile
    (fun b => b ≠ 0)

/-- Position of the member payload: after the local header, the
filename bytes actually read, and the extra field skipped with
`Seek(extra_field_len, SEEK_CUR)`. -/
def segPayloadPos (store : List Byte) (pos : Nat) (file_header : ZipFileHeaderS) :
    Nat :=
  pos + 30 + (storeReadAt store (pos + 30) file_header.file_name_length).length +
    file_header.extra_field_len

/-- Embedding of `ZipFileSegment.LoadFromZipFile`: validate the local
file header against the central directory record and build the
segment view. -/
def LoadFromZipFile (store : List Byte) (global_offset : Int)
    (members : Members) (member_name : List Byte) : Except ZipErr SegData :=
  match membersGet members member_name with
  | none => .ok .fresh
  | some zip_info =>
    let pos := segHeaderPos zip_info global_offset
    match ZipFileHeaderS.unpackFrom store pos with
    | none => .error .structError
    | some file_header =>
      if ¬ file_header.IsValid then .error .ioError
      else
        -- The filename should be null terminated.
        if segLocalName store pos file_header ≠ zip_info.filename then
          .error .ioError
        else
          let payload_pos := segPayloadPos store pos file_header
          if file_header.compression_method = 8 then
            let c_buffer := storeReadAtI store payload_pos zip_info.compress_size
            let decomp_buffer := DecompressBuffer c_buffer
            if (decomp_buffer.length : Int) ≠ zip_info.file_size then
              .error .ioError
            else .ok (.buffered decomp_buffer)
          else if file_header.compression_method = 0 then
            .ok (.stored payload_pos zip_info.file_size)
          else .error .notImplemented

/-- Reading `n` bytes from a loaded segment at `readptr` (the
`FileWrapper.read` slice view for stored members, plain buffer reads
otherwise). -/
def segRead (store : List Byte) (seg : SegData) (readptr : Nat) (n : Int) :
    List Byte :=
  match seg with
  | .fresh => []
  | .buffered data => streamOfBytes data readptr n
  | .stored slice_offset slice_size =>
    let to_read := min (slice_size - readptr) n
    storeReadAtI store (slice_offset + readptr) to_read

/-! ## The ZIP segment round trip of `zip_test.py`

The test writes `"I am a segment!"` into member `Foobar.txt` of a new
volume, re-obtains the same (cached) segment, seeks to its end and
appends `"I am another segment!"`, closes the volume, then reopens the
file with a fresh resolver and reads the segment back by URN.

Closing the volume runs every step through the functions embedded
above: the dirty segment is flushed once through `StreamAddMember`
(`ZIP_STORED`), the `information.turtle` segment is written through
`StreamAddMember` (`ZIP_DEFLATE`), and `write_zip64_CD` appends the
central directory.  Reopening runs `parse_cd` and
`ZipFileSegment.LoadFromZipFile`.  The resolver plumbing (cache moves,
URN to member-name resolution, which is the identity `Foobar.txt` for
this member) is straight-lined. -/

/-- ASCII bytes of a string. -/
def strBytes (s : String) : List Byte := s.data.map Char.toNat

/-- The first write of the test: `"I am a segment!"`. -/
def data1 : List Byte := strBytes "I am a segment!"

/-- The appended write of the test: `"I am another segment!"`. -/
def data2 : List Byte := strBytes "I am another segment!"

/-- The member name for the segment URN relative to the volume URN. -/
def foobarName : List Byte := strBytes "Foobar.txt"

/-- The `information.turtle` member name. -/
def turtleName : List Byte := strBytes "information.turtle"

/-- Modelled from the spec: the Turtle serialization that
`DumpToTurtle` (external `rdflib`) emits at close.  Its exact bytes are
irrelevant to the segment round trip; a fixed plausible payload stands
in for it. -/
def turtleBody : List Byte := strBytes "@prefix aff4: <aff4.org/Schema> ."

/-- The volume URN written as the archive comment. -/
def volumeUrn : List Byte := strBytes "aff4://4ae9d2f4-9de8-4c53-b322-a6ea4672cde7"

/-- Content of the cached `Foobar.txt` segment after the two test
writes: write `data1` at offset 0, seek to the end, write `data2`
(`FileBackedObject.Write` over the segment `StringIO`). -/
def foobarSegmentContent : List Byte :=
  let buf := storeWriteAt [] 0 data1
  storeWriteAt buf buf.length data2

/-- The volume file produced by closing the volume. -/
def builtVolume : List Byte :=
  match StreamAddMember [] [] 0 foobarName foobarSegmentContent 0 with
  | none => []
  | some (store, members) =>
    match StreamAddMember store members 0 turtleName turtleBody 8 with
    | none => []
    | some (store, members) => writeZip64CD store members volumeUrn 0

/-- Reopening the volume file with a fresh resolver and reading the
segment by URN: `parse_cd`, then `LoadFromZipFile`, then a 1000-byte
read from the start. -/
def zipRoundTripRead : Except ZipErr (List Byte) :=
  match parse_cd builtVolume with
  | .error e => .error e
  | .ok (global_offset, members) =>
    match LoadFromZipFile builtVolume global_offset members foobarName with
    | .error e => .error e
    | .ok seg => .ok (segRead builtVolume seg 0 1000)

/-- Invariant of the object cache: no key is both in use and in the
LRU list, keys are unique on both sides. -/
def CacheInv (st : CacheState) : Prop :=
  (∀ k, k ∈ st.in_use.map Prod.fst → k ∉ st.lru) ∧
  (st.in_use.map Prod.fst).Nodup ∧ st.lru.Nodup

/-! ## Theorems -/

/-- Claim C1.  On a fresh map, `AddRange(0,0,100,A)` then
`AddRange(10,10,100,A)` leaves exactly one interval, spanning logical
`[0,110)` with length 110, target `A` and target offset 0; and in
general `Range.Merge` succeeds exactly when both ranges share the
`target_id` and the same affine logical-to-target translation
(`target_offset - map_offset`). -/
theorem map_addRange_merge_c1 :
    ((MapState.AddRange ⟨[], []⟩ 0 0 100 "A").bind
        (fun st => st.AddRange 10 10 100 "A") =
      some ⟨["A"], [⟨0, 110, ⟨0, 0, 110, 0⟩⟩]⟩) ∧
    (∀ a b : Range, (a.Merge b).isSome ↔
      (a.target_id = b.target_id ∧
       a.target_offset - a.map_offset = b.target_offset - b.map_offset)) := by
  refine ⟨by decide, fun a b => ?_⟩
  simp only [Range.Merge, Range.target_offset_at_map_offset]
  split
  · rename_i h
    simp only [Option.isSome_none, Bool.false_eq_true, false_iff, not_and]
    intro h1 h2
    rcases h with h | h
    · exact h h1.symm
    · omega
  · rename_i h
    simp only [Option.isSome_some, true_iff]
    push_neg at h
    exact ⟨h.1.symm, by omega⟩

set_option maxRecDepth 40000 in
/-- Claim C2.  The ZIP segment round trip: after writing
`"I am a segment!"` into `Foobar.txt`, appending
`"I am another segment!"` to the same cached segment, and closing the
volume, reopening the volume file with a fresh resolver and reading
the segment by URN returns the concatenation. -/
theorem zip_roundtrip_c2 :
    zipRoundTripRead = .ok (data1 ++ data2) := by
  rfl

/-- Claim C3, counterexample.  Writing exactly `chunk_size` bytes to an
empty `AFF4Image` buffer flushes nothing and leaves `chunk_size` bytes
(not fewer than `chunk_size`, and the loop did not flush although the
buffer length equals the chunk size): the loop guard is strict. -/
theorem image_write_flush_counterexample_c3 :
    imageWrite 10 [] (List.replicate 10 0) = ([], List.replicate 10 0) ∧
    ¬ (List.replicate (10 : Nat) (0 : Byte)).length < 10 := by
  constructor
  · rw [imageWrite, List.nil_append, writeChunksLoop]
    simp
  · simp

/-- Claim C5.  Capacity-3 cache: after
`put(a); put(b); put(c); get(a); return(a); put(d)` the in-use map is
empty, the LRU holds exactly `[d, a, c]` most-recent first, `b` was
evicted and flushed by `put(d)`, and a subsequent `get(b)` returns
null. -/
theorem cache_scenario_c5 :
    (cacheRun 3 [.put "a" false, .put "b" false, .put "c" false,
        .get "a", .ret "a", .put "d" false]).in_use = [] ∧
    (cacheRun 3 [.put "a" false, .put "b" false, .put "c" false,
        .get "a", .ret "a", .put "d" false]).lru = ["d", "a", "c"] ∧
    (cacheRun 3 [.put "a" false, .put "b" false, .put "c" false,
        .get "a", .ret "a", .put "d" false]).flushed = ["b"] ∧
    ((cacheRun 3 [.put "a" false, .put "b" false, .put "c" false,
        .get "a", .ret "a", .put "d" false]).Get "b").1 = none := by
  refine ⟨?_, ?_, ?_, ?_⟩ <;> rfl

/-- Claim C7.  `URN.Append` on `http://www.google.com` produces the
five normalized URNs of the specification. -/
theorem urn_append_c7 :
    urnAppend "http://www.google.com" "foobar" = "http://www.google.com/foobar" ∧
    urnAppend "http://www.google.com" ".." = "http://www.google.com/" ∧
    urnAppend "http://www.google.com" "aa/bb/../.." = "http://www.google.com/" ∧
    urnAppend "http://www.google.com" "aa//../c" = "http://www.google.com/c" ∧
    urnAppend "http://www.google.com" "aa///////////.///./c" =
      "http://www.google.com/aa/c" := by
  refine ⟨?_, ?_, ?_, ?_, ?_⟩ <;> decide

/-- Claim C4.  `WriteStream` from a 4-byte non-map source into a fresh
map passes `data_stream.Size()` (= 4) as the `target_offset` of the
single recorded range, so the range translates `[0,4)` to target bytes
`[4,8)`, past the copied data, and reading the map over `[0,4)` yields
no source bytes at all (the empty read, not `"ABCD"`). -/
theorem map_writestream_nonmap_c4 :
    mapWriteStreamNonMap (strBytes "ABCD") =
      some (⟨["data"], [⟨0, 4, ⟨0, 4, 4, 0⟩⟩]⟩, strBytes "ABCD") ∧
    (mapRead (fun tid => if tid = 0 then some (streamOfBytes (strBytes "ABCD")) else none)
        [⟨0, 4, ⟨0, 4, 4, 0⟩⟩] 0 4).1 = [] ∧
    strBytes "ABCD" ≠ [] := by
  refine ⟨by decide, by decide, by decide⟩

/-- The chunking loop leaves at most `chunk_size` bytes, flushes only
full chunks, and conserves the bytes. -/
theorem writeChunksLoop_spec (chunk_size : Nat) (h : 0 < chunk_size) :
    ∀ buffer : List Byte,
      (writeChunksLoop chunk_size buffer).2.length ≤ chunk_size ∧
      (∀ c ∈ (writeChunksLoop chunk_size buffer).1, c.length = chunk_size) ∧
      (writeChunksLoop chunk_size buffer).1.flatten ++
        (writeChunksLoop chunk_size buffer).2 = buffer := by
  have key : ∀ (n : Nat) (buffer : List Byte), buffer.length ≤ n →
      (writeChunksLoop chunk_size buffer).2.length ≤ chunk_size ∧
      (∀ c ∈ (writeChunksLoop chunk_size buffer).1, c.length = chunk_size) ∧
      (writeChunksLoop chunk_size buffer).1.flatten ++
        (writeChunksLoop chunk_size buffer).2 = buffer := by
    intro n
    induction n with
    | zero =>
      intro buffer hb
      rw [writeChunksLoop, dif_neg (by omega)]
      simp_all
    | succ n ih =>
      intro buffer hb
      rw [writeChunksLoop]
      by_cases hcond : chunk_size < buffer.length ∧ 0 < chunk_size
      · rw [dif_pos hcond]
        have hdrop : (buffer.drop chunk_size).length ≤ n := by
          simp only [List.length_drop]; omega
        obtain ⟨ih1, ih2, ih3⟩ := ih (buffer.drop chunk_size) hdrop
        refine ⟨by simpa using ih1, ?_, ?_⟩
        · intro c hc
          rcases List.mem_cons.mp (by simpa using hc) with rfl | hc
          · simp only [List.length_take]; omega
          · exact ih2 c hc
        · simp only [List.flatten_cons, List.append_assoc]
          rw [ih3, List.take_append_drop]
      · rw [dif_neg hcond]
        simp only [List.flatten_nil, List.nil_append, le_refl]
        refine ⟨by omega, by simp, trivial⟩
  intro buffer
  exact key buffer.length buffer le_rfl

/-- Claim C3, amended.  After `AFF4Image.Write` returns, at most
`chunk_size` bytes remain buffered (not: fewer than `chunk_size`),
every chunk passed to `FlushChunk` is exactly `chunk_size` bytes, and
the flushed chunks followed by the remaining buffer are exactly the old
buffer plus the written data; the loop flushes only while the buffer
holds strictly more than `chunk_size` bytes. -/
theorem image_write_chunking_c3 (chunk_size : Nat) (buffer data : List Byte)
    (h : 0 < chunk_size) :
    (imageWrite chunk_size buffer data).2.length ≤ chunk_size ∧
    (∀ c ∈ (imageWrite chunk_size buffer data).1, c.length = chunk_size) ∧
    (imageWrite chunk_size buffer data).1.flatten ++
      (imageWrite chunk_size buffer data).2 = buffer ++ data :=
  writeChunksLoop_spec chunk_size h (buffer ++ data)

/-- Witness for C3 at `chunk_size = 2`, `buffer = []`,
`data = [1, 2, 3]`. -/
theorem image_write_chunking_c3_witness :
    0 < 2 ∧
    ((imageWrite 2 [] [1, 2, 3]).2.length ≤ 2 ∧
     (∀ c ∈ (imageWrite 2 [] [1, 2, 3]).1, c.length = 2) ∧
     (imageWrite 2 [] [1, 2, 3]).1.flatten ++
       (imageWrite 2 [] [1, 2, 3]).2 = [] ++ [1, 2, 3]) :=
  ⟨by decide, image_write_chunking_c3 2 [] [1, 2, 3] (by decide)⟩

/-- Folding `max` never drops below its seed. -/
theorem foldl_max_seed_le (l : List Int) : ∀ a : Int, a ≤ l.foldl max a := by
  induction l with
  | nil => intro a; exact le_rfl
  | cons x xs ih =>
    intro a
    exact le_trans (le_max_left a x) (ih (max a x))

/-- Folding `max` dominates every list member. -/
theorem mem_le_foldl_max (l : List Int) : ∀ (a b : Int), b ∈ l → b ≤ l.foldl max a := by
  induction l with
  | nil => intro a b hb; cases hb
  | cons x xs ih =>
    intro a b hb
    rcases List.mem_cons.mp hb with rfl | hb
    · exact le_trans (le_max_right a b) (foldl_max_seed_le xs (max a b))
    · exact ih (max a x) b hb

/-- Folding `max` returns the seed or a member. -/
theorem foldl_max_eq_seed_or_mem (l : List Int) :
    ∀ a : Int, l.foldl max a = a ∨ l.foldl max a ∈ l := by
  induction l with
  | nil => intro a; exact Or.inl rfl
  | cons x xs ih =>
    intro a
    rcases ih (max a x) with h | h
    · rcases max_choice a x with hm | hm
      · exact Or.inl (by rw [List.foldl_cons, h, hm])
      · exact Or.inr (by rw [List.foldl_cons, h, hm]; exact List.mem_cons_self x xs)
    · exact Or.inr (List.mem_cons_of_mem x h)

/-- Every interval end is bounded by `treeEnd`. -/
theorem hi_le_treeEnd (t : Tree) (iv : Interval) (hm : iv ∈ t) :
    iv.hi ≤ treeEnd t := by
  cases t with
  | nil => cases hm
  | cons x xs =>
    simp only [treeEnd, List.map_cons]
    rcases List.mem_cons.mp hm with rfl | hm
    · exact foldl_max_seed_le (xs.map (fun iv => iv.hi)) iv.hi
    · exact mem_le_foldl_max (xs.map (fun iv => iv.hi)) x.hi iv.hi
        (List.mem_map_of_mem (fun iv => iv.hi) hm)

/-- On a non-empty tree, `treeEnd` is some interval end. -/
theorem treeEnd_mem (t : Tree) (ht : t ≠ []) : ∃ iv ∈ t, treeEnd t = iv.hi := by
  cases t with
  | nil => exact absurd rfl ht
  | cons x xs =>
    simp only [treeEnd, List.map_cons]
    rcases foldl_max_eq_seed_or_mem (xs.map (fun iv => iv.hi)) x.hi with h | h
    · exact ⟨x, List.mem_cons_self x xs, h⟩
    · rcases List.mem_map.mp h with ⟨iv, hiv, hh⟩
      exact ⟨iv, List.mem_cons_of_mem x hiv, hh.symm⟩

/-- A successful `Merge` can only move the range end to the right. -/
theorem Merge_map_end_le (a b m : Range) (h : a.Merge b = some m) :
    a.map_end ≤ m.map_end := by
  unfold Range.Merge at h
  split at h
  · exact absurd h (by simp)
  · simp only [Option.some.injEq] at h
    subst h
    simp only [Range.map_end]
    omega

/-- The left-neighbour phase can only move the range end to the right. -/
theorem mergeLeftPhase_map_end_le (t : Tree) (r : Range) (t1 : Tree) (r1 : Range)
    (x : Option Interval) (h : mergeLeftPhase t r = some (t1, r1, x)) :
    r.map_end ≤ r1.map_end := by
  unfold mergeLeftPhase at h
  split at h
  next heq =>
    simp only [Option.some.injEq, Prod.mk.injEq] at h
    exact h.2.1 ▸ le_rfl
  next leftIv heq =>
    split at h
    next merged hmerge =>
      simp only [Option.some.injEq, Prod.mk.injEq] at h
      exact h.2.1 ▸ Merge_map_end_le _ _ _ hmerge
    next hmerge =>
      split at h
      next hclip => cases h
      next leftRange hclip =>
        split at h
        next heqq =>
          simp only [Option.some.injEq, Prod.mk.injEq] at h
          exact h.2.1 ▸ le_rfl
        next heqq =>
          split at h
          next haddi => cases h
          next t2 haddi =>
            simp only [Option.some.injEq, Prod.mk.injEq] at h
            exact h.2.1 ▸ le_rfl

/-- The right-neighbour phase can only move the range end to the right. -/
theorem mergeRightPhase_map_end_le (t : Tree) (r : Range) (t1 : Tree) (r1 : Range)
    (x : Option Interval) (h : mergeRightPhase t r = some (t1, r1, x)) :
    r.map_end ≤ r1.map_end := by
  unfold mergeRightPhase at h
  split at h
  next heq =>
    simp only [Option.some.injEq, Prod.mk.injEq] at h
    exact h.2.1 ▸ le_rfl
  next rightIv heq =>
    split at h
    next merged hmerge =>
      simp only [Option.some.injEq, Prod.mk.injEq] at h
      exact h.2.1 ▸ Merge_map_end_le _ _ _ hmerge
    next hmerge =>
      split at h
      next hclip => cases h
      next rightRange hclip =>
        split at h
        next heqq =>
          simp only [Option.some.injEq, Prod.mk.injEq] at h
          exact h.2.1 ▸ le_rfl
        next heqq =>
          split at h
          next haddi => cases h
          next t2 haddi =>
            simp only [Option.some.injEq, Prod.mk.injEq] at h
            exact h.2.1 ▸ le_rfl

/-- A successful `treeAddi` leaves the inserted interval in the tree. -/
theorem treeAddi_mem (t : Tree) (lo hi : Int) (r : Range) (t1 : Tree)
    (h : treeAddi t lo hi r = some t1) : (⟨lo, hi, r⟩ : Interval) ∈ t1 := by
  unfold treeAddi at h
  split at h
  next => cases h
  next =>
    split at h <;> simp only [Option.some.injEq] at h <;> subst h
    · assumption
    · simp

/-- After a successful `addRangeTree`, an interval ending no earlier
than the new range survives in the tree. -/
theorem addRangeTree_end_le (t : Tree) (r : Range) (t1 : Tree)
    (h : addRangeTree t r = some t1) :
    ∃ iv ∈ t1, r.map_end ≤ iv.hi := by
  unfold addRangeTree at h
  rw [Option.bind_eq_bind] at h
  rcases Option.bind_eq_some.mp h with ⟨⟨ta, ra, xa⟩, ha, h⟩
  rcases Option.bind_eq_some.mp h with ⟨⟨tb, rb, xb⟩, hb, h⟩
  refine ⟨⟨rb.map_offset, rb.map_end, rb⟩, treeAddi_mem _ _ _ _ _ h, ?_⟩
  exact le_trans (mergeLeftPhase_map_end_le _ _ _ _ _ ha)
    (mergeRightPhase_map_end_le _ _ _ _ _ hb)

/-- Claim C10.  `AFF4Map.Size` is the end of the highest mapped
interval (`0` for an empty tree), and a successful
`AddRange(map_offset, _, length, _)` with positive length makes the
size at least `map_offset + length`. -/
theorem map_size_c10 :
    (treeEnd [] = 0) ∧
    (∀ (t : Tree) (iv : Interval), iv ∈ t → iv.hi ≤ treeEnd t) ∧
    (∀ t : Tree, t ≠ [] → ∃ iv ∈ t, treeEnd t = iv.hi) ∧
    (∀ (t : Tree) (m tgt l : Int) (tid : Nat) (t1 : Tree), 0 < l →
      addRangeTree t ⟨m, tgt, l, tid⟩ = some t1 → m + l ≤ treeEnd t1) := by
  refine ⟨rfl, hi_le_treeEnd, treeEnd_mem, ?_⟩
  intro t m tgt l tid t1 hl h
  rcases addRangeTree_end_le t ⟨m, tgt, l, tid⟩ t1 h with ⟨iv, hm, hle⟩
  have := hi_le_treeEnd t1 iv hm
  simp only [Range.map_end] at hle
  omega

/-- Witness for C10 on the empty tree with `AddRange(0, 0, 5, 0)`. -/
theorem map_size_c10_witness :
    ((⟨0, 5, ⟨0, 0, 5, 0⟩⟩ : Interval) ∈ ([⟨0, 5, ⟨0, 0, 5, 0⟩⟩] : Tree)) ∧
    (([⟨0, 5, ⟨0, 0, 5, 0⟩⟩] : Tree) ≠ []) ∧
    (0 : Int) < 5 ∧
    (addRangeTree [] ⟨0, 0, 5, 0⟩ = some [⟨0, 5, ⟨0, 0, 5, 0⟩⟩]) ∧
    ((⟨0, 5, ⟨0, 0, 5, 0⟩⟩ : Interval).hi ≤ treeEnd [⟨0, 5, ⟨0, 0, 5, 0⟩⟩]) ∧
    (∃ iv ∈ ([⟨0, 5, ⟨0, 0, 5, 0⟩⟩] : Tree), treeEnd [⟨0, 5, ⟨0, 0, 5, 0⟩⟩] = iv.hi) ∧
    ((0 : Int) + 5 ≤ treeEnd [⟨0, 5, ⟨0, 0, 5, 0⟩⟩]) := by
  refine ⟨by decide, by decide, by decide, by decide, ?_, ?_, ?_⟩
  · exact map_size_c10.2.1 _ _ (by decide)
  · exact map_size_c10.2.2.1 _ (by decide)
  · exact map_size_c10.2.2.2 [] 0 0 5 0 _ (by decide) (by decide)

/-- The read loop of `AFF4Map.Read` behaves identically when every
unopenable target is replaced by an infinite zero stream. -/
theorem mapReadLoop_zeroFilled (openTarget : Nat → Option StreamFn) :
    ∀ (l : List Interval) (acc : List Byte) (p n : Int),
      mapReadLoop openTarget l acc p n =
        mapReadLoop (zeroFilled openTarget) l acc p n := by
  intro l
  induction l with
  | nil => intro acc p n; rfl
  | cons iv rest ih =>
    intro acc p n
    simp only [mapReadLoop]
    by_cases hpad : iv.data.map_offset > p
    · simp only [hpad, if_true]
      by_cases hz : n - min n (iv.data.map_offset - p) = 0
      · rw [if_pos hz, if_pos hz]
      · rw [if_neg hz, if_neg hz]
        cases ho : openTarget iv.data.target_id with
        | some f =>
          simp only [zeroFilled, ho, Option.getD_some]
          exact ih _ _ _
        | none =>
          simp only [zeroFilled, ho, Option.getD_none]
          exact ih _ _ _
    · simp only [hpad, if_false]
      by_cases hz : n = 0
      · rw [if_pos hz, if_pos hz]
      · rw [if_neg hz, if_neg hz]
        cases ho : openTarget iv.data.target_id with
        | some f =>
          simp only [zeroFilled, ho, Option.getD_some]
          exact ih _ _ _
        | none =>
          simp only [zeroFilled, ho, Option.getD_none]
          exact ih _ _ _

/-- Claim C9.  `AFF4Map.Read` never propagates the `IOError` of an
unopenable target: the whole read behaves exactly as if every such
target were an infinite zero stream, and in particular a read lying
inside a single range whose target cannot be opened returns pure zero
padding with the read pointer advanced over the full span. -/
theorem map_read_fault_tolerance_c9 :
    (∀ (openTarget : Nat → Option StreamFn) (t : Tree) (readptr length : Int),
      mapRead openTarget t readptr length =
        mapRead (zeroFilled openTarget) t readptr length) ∧
    (∀ (openTarget : Nat → Option StreamFn) (r : Range) (n : Int),
      openTarget r.target_id = none → 0 < n → n ≤ r.length →
      mapRead openTarget [⟨r.map_offset, r.map_end, r⟩] r.map_offset n =
        (zeroPad n, r.map_offset + n)) := by
  constructor
  · intro openTarget t readptr length
    simp only [mapRead]
    rw [mapReadLoop_zeroFilled openTarget]
  · intro openTarget r n ho hn hnr
    have hlen : 0 < r.length := lt_of_lt_of_le hn hnr
    have ha : r.map_offset < r.map_offset + n := by omega
    have hb : r.map_offset < r.map_end := by
      simp only [Range.map_end]; omega
    have hq : sortIntervals (treeOverlap [⟨r.map_offset, r.map_end, r⟩]
        r.map_offset (r.map_offset + n)) = [⟨r.map_offset, r.map_end, r⟩] := by
      simp [treeOverlap, sortIntervals, sortedInsert, ha, hb]
    have hmin : min n (r.map_end - r.map_offset) = n := by
      simp only [Range.map_end]; omega
    have hloop : mapReadLoop openTarget [⟨r.map_offset, r.map_end, r⟩]
        [] r.map_offset n = (zeroPad n, r.map_offset + n, n - n) := by
      simp only [mapReadLoop]
      rw [if_neg (lt_irrefl r.map_offset), if_neg (by omega : ¬ n = 0), ho, hmin]
      simp only [mapReadLoop, List.nil_append]
    have hne : (zeroPad n).isEmpty = false := by
      unfold zeroPad
      cases hk : n.toNat with
      | zero => omega
      | succ k => simp [List.replicate_succ]
    simp only [mapRead, hq, hloop, hne, Bool.false_eq_true, if_false]

/-- Witness for C9: a single range `[0,10)` with an unopenable target,
read at length 5. -/
theorem map_read_fault_tolerance_c9_witness :
    ((fun _ : Nat => (none : Option StreamFn)) (Range.target_id ⟨0, 0, 10, 0⟩) = none) ∧
    (0 : Int) < 5 ∧ (5 : Int) ≤ Range.length ⟨0, 0, 10, 0⟩ ∧
    mapRead (fun _ => none) [⟨Range.map_offset ⟨0, 0, 10, 0⟩,
        Range.map_end ⟨0, 0, 10, 0⟩, ⟨0, 0, 10, 0⟩⟩]
      (Range.map_offset ⟨0, 0, 10, 0⟩) 5 =
      (zeroPad 5, Range.map_offset ⟨0, 0, 10, 0⟩ + 5) :=
  ⟨rfl, by decide, by decide,
    map_read_fault_tolerance_c9.2 (fun _ => none) ⟨0, 0, 10, 0⟩ 5 rfl
      (by decide) (by decide)⟩

/-- Claim C8, counterexample.  A member whose local header announces
compression method 99 makes `LoadFromZipFile` raise
`NotImplementedError`, not `IOError`; and a DEFLATE member whose
decompressed size differs from the recorded size raises `IOError`, an
abnormal case absent from the claimed list. -/
theorem zip_open_errors_counterexample_c8 :
    (LoadFromZipFile
        (ZipFileHeaderS.Pack
          { compression_method := 99, file_name_length := 1, extra_field_len := 0 } ++ [65])
        0
        [([65],
          { filename := [65], local_header_offset := 0, compression_method := 99 })]
        [65] =
      .error .notImplemented) ∧
    ZipErr.notImplemented ≠ ZipErr.ioError ∧
    (LoadFromZipFile
        (ZipFileHeaderS.Pack
          { compression_method := 8, file_name_length := 1, extra_field_len := 0 } ++
          [65] ++ [1, 2, 3])
        0
        [([65],
          { filename := [65], local_header_offset := 0, compression_method := 8,
            compress_size := 3, file_size := 99 })]
        [65] =
      .error .ioError) := by
  refine ⟨by rfl, by decide, by rfl⟩

/-- Claim C8, amended.  For a member present in the central directory
whose local header parses, `LoadFromZipFile` raises `IOError` exactly
on an invalid magic, a filename mismatch, or a DEFLATE payload whose
decompressed length differs from the recorded size; a compression
method other than DEFLATE and STORED raises `NotImplementedError`
(not `IOError`); the remaining cases succeed. -/
theorem zip_segment_open_c8 (store : List Byte) (go : Int) (members : Members)
    (name : List Byte) (zi : ZipInfoS) (hdr : ZipFileHeaderS)
    (hm : membersGet members name = some zi)
    (hh : ZipFileHeaderS.unpackFrom store (segHeaderPos zi go) = some hdr) :
    (¬ hdr.IsValid → LoadFromZipFile store go members name = .error .ioError) ∧
    (hdr.IsValid → segLocalName store (segHeaderPos zi go) hdr ≠ zi.filename →
      LoadFromZipFile store go members name = .error .ioError) ∧
    (hdr.IsValid → segLocalName store (segHeaderPos zi go) hdr = zi.filename →
      hdr.compression_method = 8 →
      ((DecompressBuffer (storeReadAtI store
          (segPayloadPos store (segHeaderPos zi go) hdr) zi.compress_size)).length : Int)
        ≠ zi.file_size →
      LoadFromZipFile store go members name = .error .ioError) ∧
    (hdr.IsValid → segLocalName store (segHeaderPos zi go) hdr = zi.filename →
      hdr.compression_method = 8 →
      ((DecompressBuffer (storeReadAtI store
          (segPayloadPos store (segHeaderPos zi go) hdr) zi.compress_size)).length : Int)
        = zi.file_size →
      LoadFromZipFile store go members name =
        .ok (.buffered (DecompressBuffer (storeReadAtI store
          (segPayloadPos store (segHeaderPos zi go) hdr) zi.compress_size)))) ∧
    (hdr.IsValid → segLocalName store (segHeaderPos zi go) hdr = zi.filename →
      hdr.compression_method = 0 →
      LoadFromZipFile store go members name =
        .ok (.stored (segPayloadPos store (segHeaderPos zi go) hdr) zi.file_size)) ∧
    (hdr.IsValid → segLocalName store (segHeaderPos zi go) hdr = zi.filename →
      hdr.compression_method ≠ 8 → hdr.compression_method ≠ 0 →
      LoadFromZipFile store go members name = .error .notImplemented) := by
  simp only [LoadFromZipFile, hm, hh]
  refine ⟨?_, ?_, ?_, ?_, ?_, ?_⟩
  · intro hv
    rw [if_pos hv]
  · intro hv hname
    rw [if_neg (by simp [hv]), if_pos hname]
  · intro hv hname h8 hlen
    rw [if_neg (by simp [hv]), if_neg (by simp [hname]), if_pos h8, if_pos hlen]
  · intro hv hname h8 hlen
    rw [if_neg (by simp [hv]), if_neg (by simp [hname]), if_pos h8,
      if_neg (by simp [hlen])]
  · intro hv hname h0
    rw [if_neg (by simp [hv]), if_neg (by simp [hname]),
      if_neg (by simp [h0]), if_pos h0]
  · intro hv hname h8 h0
    rw [if_neg (by simp [hv]), if_neg (by simp [hname]), if_neg h8, if_neg h0]

/-- Witness for C8 at the concrete unknown-method archive. -/
theorem zip_segment_open_c8_witness :
    (membersGet
        [([65],
          { filename := [65], local_header_offset := 0, compression_method := 99 })]
        [65] =
      some
        ({ filename := [65], local_header_offset := 0, compression_method := 99 } :
          ZipInfoS)) ∧
    (ZipFileHeaderS.unpackFrom
        (ZipFileHeaderS.Pack
          { compression_method := 99, file_name_length := 1, extra_field_len := 0 } ++ [65])
        (segHeaderPos
          { filename := [65], local_header_offset := 0, compression_method := 99 } 0) =
      some
        { compression_method := 99, file_name_length := 1, extra_field_len := 0 }) ∧
    (LoadFromZipFile
        (ZipFileHeaderS.Pack
          { compression_method := 99, file_name_length := 1, extra_field_len := 0 } ++ [65])
        0
        [([65],
          { filename := [65], local_header_offset := 0, compression_method := 99 })]
        [65] =
      .error .notImplemented) := by
  refine ⟨by rfl, by rfl, ?_⟩
  exact (zip_segment_open_c8
      (ZipFileHeaderS.Pack
        { compression_method := 99, file_name_length := 1, extra_field_len := 0 } ++ [65])
      0
      [([65],
        { filename := [65], local_header_offset := 0, compression_method := 99 })]
      [65]
      { filename := [65], local_header_offset := 0, compression_method := 99 }
      { compression_method := 99, file_name_length := 1, extra_field_len := 0 }
      (by rfl) (by rfl)).2.2.2.2.2 (by rfl) (by rfl) (by decide) (by decide)

/-- Trimming only drops entries: the resulting LRU list is a sublist. -/
theorem trimLoopAux_sublist (m : Nat) :
    ∀ (fuel : Nat) (lru fl : List String),
      (trimLoopAux m fuel lru fl).1.Sublist lru := by
  intro fuel
  induction fuel with
  | zero => intro lru fl; exact List.Sublist.refl _
  | succ n ih =>
    intro lru fl
    simp only [trimLoopAux]
    split
    · split
      · exact (ih _ _).trans (List.dropLast_sublist _)
      · exact List.Sublist.refl _
    · exact List.Sublist.refl _

/-- The `_Trim` result is a sublist of the input LRU list. -/
theorem trimLoop_sublist (m : Nat) (lru fl : List String) :
    (trimLoop m lru fl).1.Sublist lru :=
  trimLoopAux_sublist m lru.length lru fl

/-- Incrementing a use count in place does not change the key list. -/
theorem keys_inc (l : List (String × Nat)) (key : String) :
    (l.map (fun p => if p.1 == key then (p.1, p.2 + 1) else p)).map Prod.fst =
      l.map Prod.fst := by
  induction l with
  | nil => rfl
  | cons p t ih =>
    simp only [List.map_cons]
    by_cases h : (p.1 == key) = true
    · rw [if_pos h, ih]
    · rw [if_neg h, ih]

/-- Decrementing a use count in place does not change the key list. -/
theorem keys_dec (l : List (String × Nat)) (key : String) :
    (l.map (fun p => if p.1 == key then (p.1, p.2 - 1) else p)).map Prod.fst =
      l.map Prod.fst := by
  induction l with
  | nil => rfl
  | cons p t ih =>
    simp only [List.map_cons]
    by_cases h : (p.1 == key) = true
    · rw [if_pos h, ih]
    · rw [if_neg h, ih]

/-- A failed `any (·.1 == key)` means the key is not in the key list. -/
theorem not_mem_keys_of_any_eq_false (l : List (String × Nat)) (key : String)
    (h : l.any (fun p => p.1 == key) = false) : key ∉ l.map Prod.fst := by
  intro hmem
  rcases List.mem_map.mp hmem with ⟨p, hp, hk⟩
  have := List.any_eq_false.mp h p hp
  rw [hk] at this
  exact this (by simp)

/-- Every operation of the object cache preserves the invariant. -/
theorem cacheStep_inv (st : CacheState) (op : CacheOp) (hinv : CacheInv st) :
    CacheInv (cacheStep st op) := by
  obtain ⟨h1, h2, h3⟩ := hinv
  cases op with
  | put key b =>
    simp only [cacheStep, CacheState.Put]
    by_cases hA : st.in_use.any (fun p => p.1 == key) = true
    · simp only [hA, if_true, Option.getD_none]
      exact ⟨h1, h2, h3⟩
    · have hAk : key ∉ st.in_use.map Prod.fst :=
        not_mem_keys_of_any_eq_false _ _ (Bool.eq_false_iff.mpr hA)
      simp only [hA, if_false]
      by_cases hB : st.lru.contains key = true
      · simp only [hB, if_true, Option.getD_none]
        exact ⟨h1, h2, h3⟩
      · have hBk : key ∉ st.lru := by simpa using hB
        simp only [hB, if_false]
        cases b with
        | true =>
          simp only [if_true, Option.getD_some]
          refine ⟨?_, ?_, h3⟩
          · intro k hk
            rcases List.mem_cons.mp hk with rfl | hk
            · exact hBk
            · exact h1 k hk
          · exact List.nodup_cons.mpr ⟨hAk, h2⟩
        | false =>
          simp only [Bool.false_eq_true, if_false, Option.getD_some]
          have hsub := trimLoop_sublist st.max_items (key :: st.lru) []
          refine ⟨?_, h2, ?_⟩
          · intro k hk hmem
            rcases List.mem_cons.mp (hsub.subset hmem) with rfl | hmem2
            · exact hAk hk
            · exact h1 k hk hmem2
          · refine List.Nodup.sublist hsub ?_
            rw [List.nodup_cons]
            exact ⟨hBk, h3⟩
  | get key =>
    simp only [cacheStep, CacheState.Get]
    by_cases hA : st.in_use.any (fun p => p.1 == key) = true
    · simp only [hA, if_true]
      refine ⟨?_, ?_, h3⟩
      · intro k hk
        rw [keys_inc] at hk
        exact h1 k hk
      · rw [keys_inc]; exact h2
    · have hAk : key ∉ st.in_use.map Prod.fst :=
        not_mem_keys_of_any_eq_false _ _ (Bool.eq_false_iff.mpr hA)
      simp only [hA, if_false]
      by_cases hB : st.lru.contains key = true
      · have hBk : key ∈ st.lru := by simpa using hB
        simp only [hB, if_true]
        refine ⟨?_, ?_, List.Nodup.erase key h3⟩
        · intro k hk
          rcases List.mem_cons.mp hk with rfl | hk
          · intro hmem
            exact ((List.Nodup.mem_erase_iff h3).mp hmem).1 rfl
          · intro hmem
            exact h1 k hk (List.mem_of_mem_erase hmem)
        · exact List.nodup_cons.mpr ⟨hAk, h2⟩
      · simp only [hB, if_false]
        exact ⟨h1, h2, h3⟩
  | ret key =>
    simp only [cacheStep, CacheState.Ret]
    cases hf : st.in_use.find? (fun p => p.1 == key) with
    | none =>
      simp only [Option.getD_none]
      exact ⟨h1, h2, h3⟩
    | some p =>
      obtain ⟨k0, n0⟩ := p
      have hk0 : k0 = key := by
        have := List.find?_some hf
        simpa using this
      have hkmem : key ∈ st.in_use.map Prod.fst :=
        hk0 ▸ List.mem_map_of_mem Prod.fst (List.mem_of_find?_eq_some hf)
      have hklru : key ∉ st.lru := h1 key hkmem
      by_cases hz : n0 = 0
      · simp only [hz, if_true, Option.getD_none]
        exact ⟨h1, h2, h3⟩
      · simp only [hz, if_false]
        by_cases hz1 : n0 - 1 = 0
        · simp only [hz1, if_true, Option.getD_some]
          have hsub := trimLoop_sublist st.max_items (key :: st.lru) []
          have hfsub : ((st.in_use.filter (fun p => p.1 != key)).map Prod.fst).Sublist
              (st.in_use.map Prod.fst) :=
            List.Sublist.map Prod.fst (List.filter_sublist _)
          refine ⟨?_, List.Nodup.sublist hfsub h2, ?_⟩
          · intro k hk hmem
            rcases List.mem_map.mp hk with ⟨q, hq, hqk⟩
            have hqne : (q.1 != key) = true := (List.mem_filter.mp hq).2
            have hkne : k ≠ key := by
              rw [← hqk]
              simpa using hqne
            have hkmem2 : k ∈ st.in_use.map Prod.fst :=
              hqk ▸ List.mem_map_of_mem Prod.fst (List.mem_filter.mp hq).1
            rcases List.mem_cons.mp (hsub.subset hmem) with rfl | hmem2
            · exact hkne rfl
            · exact h1 k hkmem2 hmem2
          · refine List.Nodup.sublist hsub ?_
            rw [List.nodup_cons]
            exact ⟨hklru, h3⟩
        · simp only [hz1, if_false, Option.getD_some]
          refine ⟨?_, ?_, h3⟩
          · intro k hk
            rw [keys_dec] at hk
            exact h1 k hk
          · rw [keys_dec]; exact h2
  | remove key =>
    simp only [cacheStep, CacheState.Remove]
    by_cases hB : st.lru.contains key = true
    · simp only [hB, if_true, Option.getD_some]
      refine ⟨?_, h2, List.Nodup.erase key h3⟩
      · intro k hk hmem
        exact h1 k hk (List.mem_of_mem_erase hmem)
    · simp only [hB, if_false]
      by_cases hA : st.in_use.any (fun p => p.1 == key) = true
      · simp only [hA, if_true, Option.getD_some]
        have hfsub : ((st.in_use.filter (fun p => p.1 != key)).map Prod.fst).Sublist
            (st.in_use.map Prod.fst) :=
          List.Sublist.map Prod.fst (List.filter_sublist _)
        refine ⟨?_, List.Nodup.sublist hfsub h2, h3⟩
        · intro k hk
          exact h1 k (hfsub.subset hk)
      · simp only [hA, if_false, Option.getD_none]
        exact ⟨h1, h2, h3⟩

/-- The invariant holds after any run from the empty cache. -/
theorem cacheRun_inv (max_items : Nat) (ops : List CacheOp) :
    CacheInv (cacheRun max_items ops) := by
  suffices h : ∀ st, CacheInv st → CacheInv (ops.foldl cacheStep st) from
    h _ ⟨fun k hk => absurd hk (List.not_mem_nil k), List.nodup_nil, List.nodup_nil⟩
  induction ops with
  | nil => intro st h; exact h
  | cons op rest ih => intro st h; exact ih _ (cacheStep_inv st op h)

/-- Claim C6.  For every sequence of `Put`, `Get`, `Return` and
`Remove` operations on the object cache starting from the empty state,
no key is simultaneously in the `in_use` map and in the LRU list. -/
theorem cache_dual_membership_c6 (max_items : Nat) (ops : List CacheOp)
    (key : String) (n : Nat)
    (h : (key, n) ∈ (cacheRun max_items ops).in_use) :
    key ∉ (cacheRun max_items ops).lru :=
  (cacheRun_inv max_items ops).1 key (List.mem_map_of_mem Prod.fst h)

/-- Witness for C6 after a single in-use `Put`. -/
theorem cache_dual_membership_c6_witness :
    ("a", 1) ∈ (cacheRun 3 [.put "a" true]).in_use ∧
    "a" ∉ (cacheRun 3 [.put "a" true]).lru :=
  ⟨by decide, cache_dual_membership_c6 3 [.put "a" true] "a" 1 (by decide)⟩

end PyAff4
